import Mathlib

/-!
Verification of the automata and language-equivalence subsystem of the
understanding-computation repository: deterministic and nondeterministic
finite automata, regular-expression compilation to NFA, and the NFA-to-DFA
subset construction.

States are natural numbers; macro-states are finite sets of naturals
(Finset ℕ).  Input symbols are characters; the reserved epsilon marker is
the character 'ε'.  Input strings are lists of characters.

Namespaces mirror the source modules:
- DFAM: DeterministicFiniteAutomata.ts (set-valued states, rules matched by
  subset inclusion).
- NFAM: NondeterministicFiniteAutomata.ts (scalar states) together with
  RegularExpressions.ts, whose patterns compile into this module.
- EquivM: the Equivalence module (NFASimulation, EquivalenceAdaptedDFA) and
  the set-valued NFA engine it drives.
-/

/-- Reserved symbol denoting a transition that consumes no input
(the string literal "ε" in the source). -/
def EPSILON : Char := 'ε'

namespace DFAM

/-- FARule from DeterministicFiniteAutomata.ts: a transition whose state
fields are sets of base states. -/
structure FARule where
  state : Finset ℕ
  character : Char
  nextState : Finset ℕ
deriving DecidableEq

/-- FARule.appliesTo: the source returns
character === this.character && state.isSubsetOf(this.state),
i.e. the queried symbol must be equal and the queried state need only be a
subset of the rule state. -/
def FARule.appliesTo (r : FARule) (state : Finset ℕ) (character : Char) : Bool :=
  character == r.character && decide (state ⊆ r.state)

/-- FARule.follow returns the rule's target state. -/
def FARule.follow (r : FARule) : Finset ℕ :=
  r.nextState

/-- DFARulebook from DeterministicFiniteAutomata.ts: an ordered list of
rules. -/
structure DFARulebook where
  rules : List FARule
deriving DecidableEq

/-- DFARulebook.ruleFor: the first rule in the list applying to the given
state and character; the source throws when .find returns nothing, which is
embedded as none. -/
def DFARulebook.ruleFor (rb : DFARulebook) (state : Finset ℕ) (character : Char) :
    Option FARule :=
  rb.rules.find? (fun r => r.appliesTo state character)

/-- DFARulebook.nextState: follow the located rule; none models the thrown
"No rule found" error. -/
def DFARulebook.nextState (rb : DFARulebook) (state : Finset ℕ) (character : Char) :
    Option (Finset ℕ) :=
  (rb.ruleFor state character).map FARule.follow

/-- DFA machine from DeterministicFiniteAutomata.ts. -/
structure DFA where
  currentState : Finset ℕ
  acceptStates : Finset ℕ
  rulebook : DFARulebook

/-- DFA.accepting: the source returns
this.currentState.isSubsetOf(this.acceptStates). -/
def DFA.accepting (m : DFA) : Bool :=
  decide (m.currentState ⊆ m.acceptStates)

/-- DFA.readCharacter: replace the current state by the rulebook's next
state; none propagates the missing-rule error. -/
def DFA.readCharacter (m : DFA) (character : Char) : Option DFA :=
  (m.rulebook.nextState m.currentState character).map
    (fun st => { m with currentState := st })

/-- DFA.readString folds readCharacter over the input, left to right. -/
def DFA.readString (m : DFA) (input : List Char) : Option DFA :=
  input.foldlM DFA.readCharacter m

/-- DFADesign from DeterministicFiniteAutomata.ts. -/
structure DFADesign where
  startState : Finset ℕ
  acceptStates : Finset ℕ
  rulebook : DFARulebook

/-- DFADesign.toDFA spawns a fresh machine at the start state. -/
def DFADesign.toDFA (d : DFADesign) : DFA :=
  ⟨d.startState, d.acceptStates, d.rulebook⟩

/-- DFADesign.accepts: run a fresh machine over the input and report
acceptance; none propagates the missing-rule error. -/
def DFADesign.accepts (d : DFADesign) (input : List Char) : Option Bool :=
  (d.toDFA.readString input).map DFA.accepting

end DFAM

namespace NFAM

/-- FARule from NondeterministicFiniteAutomata.ts: scalar states, matched
by exact equality on both fields. -/
structure FARule where
  state : ℕ
  character : Char
  nextState : ℕ
deriving DecidableEq

/-- FARule.appliesTo: the source returns
this.state === state && this.character === character. -/
def FARule.appliesTo (r : FARule) (state : ℕ) (character : Char) : Bool :=
  r.state == state && r.character == character

/-- FARule.follow returns the rule's target state. -/
def FARule.follow (r : FARule) : ℕ :=
  r.nextState

/-- NFARulebook from NondeterministicFiniteAutomata.ts. -/
structure NFARulebook where
  rules : List FARule
deriving DecidableEq

/-- NFARulebook.rulesFor: every rule applying to the given state and
character. -/
def NFARulebook.rulesFor (rb : NFARulebook) (state : ℕ) (character : Char) :
    List FARule :=
  rb.rules.filter (fun r => r.appliesTo state character)

/-- NFARulebook.followRulesFor: the targets of every applicable rule. -/
def NFARulebook.followRulesFor (rb : NFARulebook) (state : ℕ) (character : Char) :
    List ℕ :=
  (rb.rulesFor state character).map FARule.follow

/-- NFARulebook.nextStates: the union over every state in the input set of
the targets of its applicable rules (the source builds a Set from a
flatMap). -/
def NFARulebook.nextStates (rb : NFARulebook) (states : Finset ℕ) (character : Char) :
    Finset ℕ :=
  states.biUnion (fun s => (rb.followRulesFor s character).toFinset)

/-- Set of every rule target of the rulebook; each round of the
epsilon-closure iteration can only add states from this finite set, which
bounds the number of rounds. -/
def NFARulebook.targets (rb : NFARulebook) : Finset ℕ :=
  (rb.rules.map FARule.nextState).toFinset

/-- One round of the followFreeMoves recursion from the source, indexed by
fuel: compute nextStates(states, "ε"); if every new state is already
present return states, otherwise recurse on the union.  The source recurs
unboundedly; fuel at least targets.card + 1 is enough for the source
recursion to have reached its fixpoint (ffmAux_fixpoint below). -/
def NFARulebook.ffmAux (rb : NFARulebook) : ℕ → Finset ℕ → Finset ℕ
  | 0, states => states
  | fuel + 1, states =>
    let moreStates := rb.nextStates states EPSILON
    if moreStates ⊆ states then states
    else rb.ffmAux fuel (states ∪ moreStates)

/-- NFARulebook.followFreeMoves: the epsilon-closure fixpoint of the
source, run with provably sufficient fuel. -/
def NFARulebook.followFreeMoves (rb : NFARulebook) (states : Finset ℕ) : Finset ℕ :=
  rb.ffmAux (rb.targets.card + 1) states

/-- NFA machine from NondeterministicFiniteAutomata.ts.  The field
rawCurrentStates embeds the private field _currentStates; the public
currentStates getter is the definition below. -/
structure NFA where
  rawCurrentStates : Finset ℕ
  acceptStates : List ℕ
  rulebook : NFARulebook

/-- NFA.currentStates getter: the epsilon-closure of the raw state set,
recomputed on every read. -/
def NFA.currentStates (m : NFA) : Finset ℕ :=
  m.rulebook.followFreeMoves m.rawCurrentStates

/-- NFA.accepting: some state of the reported currentStates lies in
acceptStates. -/
def NFA.accepting (m : NFA) : Bool :=
  decide (∃ s ∈ m.currentStates, s ∈ m.acceptStates)

/-- NFA.readCharacter: the raw state set becomes
nextStates(currentStates, character), reading the closed set through the
getter. -/
def NFA.readCharacter (m : NFA) (character : Char) : NFA :=
  { m with rawCurrentStates := m.rulebook.nextStates m.currentStates character }

/-- NFA.readString folds readCharacter over the input, left to right. -/
def NFA.readString (m : NFA) (input : List Char) : NFA :=
  input.foldl NFA.readCharacter m

/-- NFADesign from NondeterministicFiniteAutomata.ts. -/
structure NFADesign where
  startState : ℕ
  acceptStates : List ℕ
  rulebook : NFARulebook

/-- NFADesign.toNFA spawns a machine whose raw state set is the singleton
of the start state. -/
def NFADesign.toNFA (d : NFADesign) : NFA :=
  ⟨{d.startState}, d.acceptStates, d.rulebook⟩

/-- NFADesign.accepts: run a fresh machine over the input and report
acceptance. -/
def NFADesign.accepts (d : NFADesign) (input : List Char) : Bool :=
  (d.toNFA.readString input).accepting

end NFAM

namespace NFAM

/-- Every state produced by nextStates is the target of some rule. -/
lemma nextStates_subset_targets (rb : NFARulebook) (states : Finset ℕ) (c : Char) :
    rb.nextStates states c ⊆ rb.targets := by
  intro x hx
  simp only [NFARulebook.nextStates, Finset.mem_biUnion, List.mem_toFinset,
    NFARulebook.followRulesFor, NFARulebook.rulesFor, List.mem_map,
    List.mem_filter] at hx
  obtain ⟨s, hs, r, ⟨hr, _⟩, hfollow⟩ := hx
  simp only [NFARulebook.targets, List.mem_toFinset, List.mem_map]
  exact ⟨r, hr, hfollow⟩

/-- With fuel exceeding the number of yet-unreached rule targets, the
fueled iteration reaches the no-growth fixpoint of the source recursion. -/
lemma ffmAux_fixpoint (rb : NFARulebook) :
    ∀ fuel states, (rb.targets \ states).card < fuel →
      rb.nextStates (rb.ffmAux fuel states) EPSILON ⊆ rb.ffmAux fuel states := by
  intro fuel
  induction fuel with
  | zero => intro states h; omega
  | succ f ih =>
    intro states h
    by_cases hss : rb.nextStates states EPSILON ⊆ states
    · simp [NFARulebook.ffmAux, hss]
    · have hstep : rb.ffmAux (f + 1) states
          = rb.ffmAux f (states ∪ rb.nextStates states EPSILON) := by
        simp [NFARulebook.ffmAux, hss]
      rw [hstep]
      apply ih
      obtain ⟨x, hxm, hxS⟩ := Finset.not_subset.mp hss
      have hxt : x ∈ rb.targets := nextStates_subset_targets rb states EPSILON hxm
      have hsub : rb.targets \ (states ∪ rb.nextStates states EPSILON)
          ⊂ rb.targets \ states := by
        refine Finset.ssubset_iff_of_subset
          (Finset.sdiff_subset_sdiff (le_refl _) Finset.subset_union_left) |>.mpr ?_
        exact ⟨x, Finset.mem_sdiff.mpr ⟨hxt, hxS⟩,
          fun hmem => (Finset.mem_sdiff.mp hmem).2 (Finset.mem_union_right _ hxm)⟩
      have := Finset.card_lt_card hsub
      omega

/-- When the epsilon moves add nothing new, one round of the iteration
returns its input unchanged. -/
lemma ffmAux_eq_of_subset (rb : NFARulebook) (f : ℕ) (states : Finset ℕ)
    (h : rb.nextStates states EPSILON ⊆ states) :
    rb.ffmAux (f + 1) states = states := by
  simp [NFARulebook.ffmAux, h]

/-- The computed epsilon-closure absorbs its own epsilon moves. -/
lemma nextStates_followFreeMoves_subset (rb : NFARulebook) (states : Finset ℕ) :
    rb.nextStates (rb.followFreeMoves states) EPSILON ⊆ rb.followFreeMoves states := by
  apply ffmAux_fixpoint
  have : (rb.targets \ states).card ≤ rb.targets.card :=
    Finset.card_le_card (Finset.sdiff_subset)
  omega

end NFAM

namespace NFAM

/-- Pattern from RegularExpressions.ts as a closed tagged union: Empty,
Literal, Concatenate, Choose, Repeat (the last named repeatPat because
repeat is reserved in Lean). -/
inductive Pattern where
  | empty : Pattern
  | literal : Char → Pattern
  | concatenate : Pattern → Pattern → Pattern
  | choose : Pattern → Pattern → Pattern
  | repeatPat : Pattern → Pattern

/-- Pattern precedence from the source: alternation 0, concatenation 1,
repetition 2, literal and empty 3. -/
def Pattern.precedence : Pattern → ℕ
  | .empty => 3
  | .literal _ => 3
  | .concatenate _ _ => 1
  | .choose _ _ => 0
  | .repeatPat _ => 2

/-- Pattern.toNFADesign from RegularExpressions.ts.  The source draws
fresh state identifiers from a module-level generator yielding 0, 1, 2,
...; the generator is embedded as an explicit counter threaded through the
compilation, returned alongside the design.  Allocation order follows the
source exactly: Concatenate and Choose compile the first sub-pattern, then
the second; Choose and Repeat allocate their new start state after the
sub-compilations. -/
def Pattern.toNFADesign : Pattern → ℕ → NFADesign × ℕ
  | .empty, n =>
    (⟨n, [n], ⟨[]⟩⟩, n + 1)
  | .literal c, n =>
    (⟨n, [n + 1], ⟨[⟨n, c, n + 1⟩]⟩⟩, n + 2)
  | .concatenate p q, n =>
    let (d1, n1) := p.toNFADesign n
    let (d2, n2) := q.toNFADesign n1
    (⟨d1.startState, d2.acceptStates,
      ⟨d1.rulebook.rules
        ++ d1.acceptStates.map (fun s => ⟨s, EPSILON, d2.startState⟩)
        ++ d2.rulebook.rules⟩⟩, n2)
  | .choose p q, n =>
    let (d1, n1) := p.toNFADesign n
    let (d2, n2) := q.toNFADesign n1
    (⟨n2, d1.acceptStates ++ d2.acceptStates,
      ⟨d1.rulebook.rules ++ d2.rulebook.rules
        ++ [⟨n2, EPSILON, d1.startState⟩, ⟨n2, EPSILON, d2.startState⟩]⟩⟩, n2 + 1)
  | .repeatPat p, n =>
    let (d, n1) := p.toNFADesign n
    (⟨n1, d.acceptStates ++ [n1],
      ⟨d.rulebook.rules
        ++ [⟨n1, EPSILON, d.startState⟩]
        ++ (d.acceptStates ++ [n1]).map (fun s => ⟨s, EPSILON, d.startState⟩)⟩⟩,
     n1 + 1)

/-- Pattern.matches: compile at the given generator position and ask the
resulting NFA design whether it accepts the input. -/
def Pattern.matches (p : Pattern) (counter : ℕ) (input : List Char) : Bool :=
  (p.toNFADesign counter).1.accepts input

end NFAM

namespace EquivM

/-- Modelled from the spec: order-preserving removal of duplicate symbols,
used by the alphabet of the set-valued NFA rulebook, whose source file
(the updated NondeterministicFiniteAutomata module referenced by the
Equivalence module and its tests) is not in the snapshot. -/
def dedupFirst (l : List Char) : List Char :=
  l.foldl (fun acc c => if c ∈ acc then acc else acc ++ [c]) []

/-- Modelled from the spec: the set-valued NFA rulebook used by the
Equivalence module.  Its source file is missing from the snapshot; per the
spec its rules are the set-valued FARule of the DFA module, and
rulesFor(state, symbol) returns all matching rules. -/
structure NFARulebook where
  rules : List DFAM.FARule
deriving DecidableEq

/-- Modelled from the spec: all rules applying to the given macro-state
and character (matching via the set-valued FARule.appliesTo). -/
def NFARulebook.rulesFor (rb : NFARulebook) (state : Finset ℕ) (character : Char) :
    List DFAM.FARule :=
  rb.rules.filter (fun r => r.appliesTo state character)

/-- Modelled from the spec: the union of the targets of every rule
applying to the singleton of the given base state. -/
def NFARulebook.followRulesFor (rb : NFARulebook) (state : ℕ) (character : Char) :
    Finset ℕ :=
  ((rb.rulesFor {state} character).map DFAM.FARule.follow).foldr (· ∪ ·) ∅

/-- Modelled from the spec: nextStates(states, symbol) is the union over
every state in the input set of the targets of its applicable rules. -/
def NFARulebook.nextStates (rb : NFARulebook) (states : Finset ℕ) (character : Char) :
    Finset ℕ :=
  states.biUnion (fun s => rb.followRulesFor s character)

/-- Modelled from the spec: the alphabet of the rulebook, the distinct
symbols appearing in any rule, excluding the EPSILON marker. -/
def NFARulebook.alphabet (rb : NFARulebook) : List Char :=
  dedupFirst ((rb.rules.map DFAM.FARule.character).filter (fun c => c ≠ EPSILON))

/-- Union of every rule target, bounding the growth of the epsilon-closure
iteration. -/
def NFARulebook.targets (rb : NFARulebook) : Finset ℕ :=
  (rb.rules.map DFAM.FARule.nextState).foldr (· ∪ ·) ∅

/-- Modelled from the spec: fueled epsilon-closure iteration, identical in
shape to the scalar module's followFreeMoves. -/
def NFARulebook.ffmAux (rb : NFARulebook) : ℕ → Finset ℕ → Finset ℕ
  | 0, states => states
  | fuel + 1, states =>
    let moreStates := rb.nextStates states EPSILON
    if moreStates ⊆ states then states
    else rb.ffmAux fuel (states ∪ moreStates)

/-- Modelled from the spec: the epsilon-closure fixpoint, run with
provably sufficient fuel. -/
def NFARulebook.followFreeMoves (rb : NFARulebook) (states : Finset ℕ) : Finset ℕ :=
  rb.ffmAux (rb.targets.card + 1) states

/-- Modelled from the spec: the set-valued NFA machine (raw state set,
accept states, rulebook). -/
structure NFA where
  rawCurrentStates : Finset ℕ
  acceptStates : Finset ℕ
  rulebook : NFARulebook

/-- Modelled from the spec: the currentStates getter reports the
epsilon-closure of the raw state set. -/
def NFA.currentStates (m : NFA) : Finset ℕ :=
  m.rulebook.followFreeMoves m.rawCurrentStates

/-- Modelled from the spec: accepting when the closure intersects the
accept states non-emptily. -/
def NFA.accepting (m : NFA) : Bool :=
  decide (∃ s ∈ m.currentStates, s ∈ m.acceptStates)

/-- Modelled from the spec: the raw state set becomes
nextStates(currentStates, character). -/
def NFA.readCharacter (m : NFA) (character : Char) : NFA :=
  { m with rawCurrentStates := m.rulebook.nextStates m.currentStates character }

/-- Modelled from the spec: fold readCharacter over the input. -/
def NFA.readString (m : NFA) (input : List Char) : NFA :=
  input.foldl NFA.readCharacter m

/-- Modelled from the spec: the set-valued NFA design (start macro-state,
accept states, rulebook) used by the Equivalence module. -/
structure NFADesign where
  startState : Finset ℕ
  acceptStates : Finset ℕ
  rulebook : NFARulebook

/-- Modelled from the spec: toNFA() spawns a machine at the start state. -/
def NFADesign.toNFA (d : NFADesign) : NFA :=
  ⟨d.startState, d.acceptStates, d.rulebook⟩

/-- Modelled from the spec: toNFA(state) spawns a machine at an arbitrary
macro-state, as the Equivalence module calls it. -/
def NFADesign.toNFAFrom (d : NFADesign) (state : Finset ℕ) : NFA :=
  ⟨state, d.acceptStates, d.rulebook⟩

/-- Modelled from the spec: run a fresh machine over the input and report
acceptance. -/
def NFADesign.accepts (d : NFADesign) (input : List Char) : Bool :=
  (d.toNFA.readString input).accepting

/-- EquivalenceAdaptedDFA from the Equivalence module: a DFA over
macro-states whose accept check tests whether some accept macro-state is a
subset of the current one (acceptState.difference(currentState).size === 0
in the source). -/
structure EquivalenceAdaptedDFA where
  currentState : Finset ℕ
  acceptStates : List (Finset ℕ)
  rulebook : DFAM.DFARulebook

/-- EquivalenceAdaptedDFA.accepting per the source:
some accept state has empty difference with the current state. -/
def EquivalenceAdaptedDFA.accepting (m : EquivalenceAdaptedDFA) : Bool :=
  m.acceptStates.any (fun a => decide (a \ m.currentState = ∅))

/-- EquivalenceAdaptedDFA.readCharacter: step via the DFA rulebook;
none propagates the missing-rule error. -/
def EquivalenceAdaptedDFA.readCharacter (m : EquivalenceAdaptedDFA) (character : Char) :
    Option EquivalenceAdaptedDFA :=
  (m.rulebook.nextState m.currentState character).map
    (fun st => { m with currentState := st })

/-- EquivalenceAdaptedDFA.readString folds readCharacter over the input. -/
def EquivalenceAdaptedDFA.readString (m : EquivalenceAdaptedDFA) (input : List Char) :
    Option EquivalenceAdaptedDFA :=
  input.foldlM EquivalenceAdaptedDFA.readCharacter m

/-- EquivalenceAdaptedDFADesign from the Equivalence module. -/
structure EquivalenceAdaptedDFADesign where
  startState : Finset ℕ
  acceptStates : List (Finset ℕ)
  rulebook : DFAM.DFARulebook

/-- EquivalenceAdaptedDFADesign.toDFA spawns a machine at the start
state. -/
def EquivalenceAdaptedDFADesign.toDFA (d : EquivalenceAdaptedDFADesign) :
    EquivalenceAdaptedDFA :=
  ⟨d.startState, d.acceptStates, d.rulebook⟩

/-- EquivalenceAdaptedDFADesign.accepts: run a fresh machine over the
input and report acceptance; none propagates the missing-rule error. -/
def EquivalenceAdaptedDFADesign.accepts (d : EquivalenceAdaptedDFADesign)
    (input : List Char) : Option Bool :=
  (d.toDFA.readString input).map EquivalenceAdaptedDFA.accepting

/-- NFASimulation from the Equivalence module. -/
structure NFASimulation where
  nfaDesign : NFADesign

/-- NFASimulation.nextState: put an NFA at the given macro-state, read the
character, and report the (closed) currentStates. -/
def NFASimulation.nextState (sim : NFASimulation) (state : Finset ℕ) (character : Char) :
    Finset ℕ :=
  ((sim.nfaDesign.toNFAFrom state).readCharacter character).currentStates

/-- NFASimulation.rulesFor: one set-valued FARule per alphabet symbol,
from the macro-state to its nextState. -/
def NFASimulation.rulesFor (sim : NFASimulation) (state : Finset ℕ) :
    List DFAM.FARule :=
  sim.nfaDesign.rulebook.alphabet.map
    (fun c => ⟨state, c, sim.nextState state c⟩)

/-- NFASimulation.discoverStatesAndRules from the source, indexed by fuel:
derive the rules of every known macro-state; if for every rule target some
known macro-state is a subset of it (state.difference(moreState).size ===
0 in the source), stop; otherwise recurse on the merged list, which starts
from the rule targets and appends each old state unless some element
already present is a subset of it.  none models fuel exhaustion; a some
result is the value the source recursion returns. -/
def NFASimulation.discoverStatesAndRules (sim : NFASimulation) :
    ℕ → List (Finset ℕ) → Option (List (Finset ℕ) × List DFAM.FARule)
  | 0, _ => none
  | fuel + 1, states =>
    let rules := states.flatMap (fun st => sim.rulesFor st)
    let moreStates := rules.map DFAM.FARule.follow
    if moreStates.all (fun mS => states.any (fun st => decide (st ⊆ mS))) then
      some (states, rules)
    else
      sim.discoverStatesAndRules fuel
        (states.foldl
          (fun acc st => if acc.any (fun ex => decide (ex ⊆ st)) then acc else acc ++ [st])
          moreStates)

/-- NFASimulation.toDFADesign from the source: start from the closure of
the NFA design's start state, discover the macro-states and rules, and
keep as accept states those discovered macro-states at which an NFA is
accepting. -/
def NFASimulation.toDFADesign (sim : NFASimulation) (fuel : ℕ) :
    Option EquivalenceAdaptedDFADesign :=
  let startState := sim.nfaDesign.toNFA.currentStates
  (sim.discoverStatesAndRules fuel [startState]).map
    (fun sr =>
      ⟨startState,
       sr.1.filter (fun st => (sim.nfaDesign.toNFAFrom st).accepting),
       ⟨sr.2⟩⟩)

end EquivM

/-- The example NFA rulebook of the Equivalence module (its demo driver
and its test): rules 1-a->1, 1-a->2, 1-ε->2, 2-b->3, 3-b->1, 3-ε->2. -/
def exampleRulebook : EquivM.NFARulebook :=
  ⟨[⟨{1}, 'a', {1}⟩, ⟨{1}, 'a', {2}⟩, ⟨{1}, EPSILON, {2}⟩,
    ⟨{2}, 'b', {3}⟩, ⟨{3}, 'b', {1}⟩, ⟨{3}, EPSILON, {2}⟩]⟩

/-- The example NFA design of the Equivalence module: start macro-state
{1}, accept states {3}. -/
def exampleNFADesign : EquivM.NFADesign :=
  ⟨{1}, {3}, exampleRulebook⟩

/-- The subset-construction simulator applied to the example NFA design. -/
def exampleSimulation : EquivM.NFASimulation :=
  ⟨exampleNFADesign⟩

/-- Claim C3, counterexample: in the set-valued form, appliesTo answers
true for a queried state that is a proper subset of the rule's state, so
the match is not exact equality on the state field. -/
theorem appliesTo_not_exact_equality :
    DFAM.FARule.appliesTo ⟨{0, 1}, 'a', {2}⟩ {0} 'a' = true
    ∧ ({0} : Finset ℕ) ≠ {0, 1} := by decide

/-- Claim C3, amended: appliesTo requires exact equality of the symbol in
both forms; the scalar form also requires exact equality of the state,
while the set-valued form only requires the queried state to be a subset
of the rule's state. -/
theorem appliesTo_characterization :
    (∀ (r : DFAM.FARule) (s : Finset ℕ) (c : Char),
      r.appliesTo s c = true ↔ c = r.character ∧ s ⊆ r.state)
    ∧ (∀ (r : NFAM.FARule) (s : ℕ) (c : Char),
      r.appliesTo s c = true ↔ s = r.state ∧ c = r.character) := by
  constructor
  · intro r s c
    simp [DFAM.FARule.appliesTo]
  · intro r s c
    simp only [NFAM.FARule.appliesTo, Bool.and_eq_true, beq_iff_eq]
    exact ⟨fun h => ⟨h.1.symm, h.2.symm⟩, fun h => ⟨h.1.symm, h.2.symm⟩⟩

/-- Claim C4: DFARulebook.nextState reports the missing-rule error
(none, the thrown NoRuleError of the source) exactly when no rule of the
rulebook applies to the queried state and symbol; otherwise it returns the
followed state.  It never silently returns the state unchanged. -/
theorem nextState_none_iff_no_rule (rb : DFAM.DFARulebook) (s : Finset ℕ) (c : Char) :
    rb.nextState s c = none ↔ ∀ r ∈ rb.rules, r.appliesTo s c = false := by
  simp [DFAM.DFARulebook.nextState, DFAM.DFARulebook.ruleFor, List.find?_eq_none]

/-- Claim C5: the epsilon-closure is idempotent; applying followFreeMoves
to its own result returns it unchanged.  Termination of the source's
no-growth iteration is witnessed by the total fueled definition together
with ffmAux_fixpoint. -/
theorem followFreeMoves_idempotent (rb : NFAM.NFARulebook) (states : Finset ℕ) :
    rb.followFreeMoves (rb.followFreeMoves states) = rb.followFreeMoves states := by
  have h := NFAM.nextStates_followFreeMoves_subset rb states
  unfold NFAM.NFARulebook.followFreeMoves at *
  exact NFAM.ffmAux_eq_of_subset rb _ _ h

/-- Claim C10: the set-valued DFA engine accepts exactly when the current
state set is a subset of the accept-state set; in particular it accepts at
the empty current state set whatever the accept states are. -/
theorem dfa_accepting_iff_subset (cur acc : Finset ℕ) (rb : DFAM.DFARulebook) :
    ((DFAM.DFA.accepting ⟨cur, acc, rb⟩ = true) ↔ cur ⊆ acc)
    ∧ DFAM.DFA.accepting ⟨∅, acc, rb⟩ = true := by
  constructor
  · simp [DFAM.DFA.accepting]
  · simp [DFAM.DFA.accepting]

namespace NFAM

/-- Reading input only mutates the raw state set: the rulebook and accept
states of a machine survive any readString. -/
lemma readString_preserves (m : NFA) (input : List Char) :
    (m.readString input).rulebook = m.rulebook
    ∧ (m.readString input).acceptStates = m.acceptStates := by
  induction input generalizing m with
  | nil => exact ⟨rfl, rfl⟩
  | cons c cs ih =>
    simpa [NFA.readString, NFA.readCharacter] using ih (m.readCharacter c)

/-- An empty state set has no next states. -/
lemma nextStates_empty (rb : NFARulebook) (c : Char) :
    rb.nextStates ∅ c = ∅ := by
  simp [NFARulebook.nextStates]

/-- The epsilon-closure of the empty state set is empty. -/
lemma followFreeMoves_empty (rb : NFARulebook) :
    rb.followFreeMoves ∅ = ∅ := by
  unfold NFARulebook.followFreeMoves
  exact ffmAux_eq_of_subset rb _ _ (by simp [nextStates_empty])

/-- A state with no applicable rule contributes no targets. -/
lemma followRulesFor_eq_nil (rb : NFARulebook) (s : ℕ) (c : Char)
    (h : ∀ r ∈ rb.rules, r.appliesTo s c = false) :
    rb.followRulesFor s c = [] := by
  simp only [NFARulebook.followRulesFor, NFARulebook.rulesFor]
  rw [List.filter_eq_nil_iff.mpr (by simpa using h)]
  rfl

end NFAM

/-- Claim C6: after every sequence of reads, the reported currentStates is
the epsilon-closure of the raw state set (the getter recomputes the
closure: first conjunct, and that set absorbs its own epsilon moves:
second conjunct), and the machine is accepting exactly when the reported
set intersects the accept states non-emptily. -/
theorem currentStates_closed_and_accepting_iff (rb : NFAM.NFARulebook)
    (acc : List ℕ) (raw : Finset ℕ) (input : List Char) :
    ((NFAM.NFA.readString ⟨raw, acc, rb⟩ input).currentStates
      = rb.followFreeMoves (NFAM.NFA.readString ⟨raw, acc, rb⟩ input).rawCurrentStates)
    ∧ (rb.nextStates (NFAM.NFA.readString ⟨raw, acc, rb⟩ input).currentStates EPSILON
      ⊆ (NFAM.NFA.readString ⟨raw, acc, rb⟩ input).currentStates)
    ∧ ((NFAM.NFA.readString ⟨raw, acc, rb⟩ input).accepting = true
      ↔ ∃ s ∈ (NFAM.NFA.readString ⟨raw, acc, rb⟩ input).currentStates, s ∈ acc) := by
  obtain ⟨hrb, hacc⟩ := NFAM.readString_preserves ⟨raw, acc, rb⟩ input
  refine ⟨by rw [NFAM.NFA.currentStates, hrb], ?_, ?_⟩
  · rw [NFAM.NFA.currentStates, hrb]
    exact NFAM.nextStates_followFreeMoves_subset rb _
  · rw [NFAM.NFA.accepting, hacc]
    simp

/-- Claim C7: reading any character from an empty current state set
leaves both the raw and the reported state set empty (total, no error),
and a state with no applicable rule merely drops out of the union, so the
live set only shrinks. -/
theorem readCharacter_empty_and_no_rule_shrinks (rb : NFAM.NFARulebook)
    (acc : List ℕ) (c : Char) (s : ℕ) (S : Finset ℕ)
    (h : ∀ r ∈ rb.rules, r.appliesTo s c = false) :
    (NFAM.NFA.readCharacter ⟨∅, acc, rb⟩ c).rawCurrentStates = ∅
    ∧ (NFAM.NFA.readCharacter ⟨∅, acc, rb⟩ c).currentStates = ∅
    ∧ rb.nextStates (insert s S) c = rb.nextStates S c := by
  have hraw : (NFAM.NFA.readCharacter ⟨∅, acc, rb⟩ c).rawCurrentStates = ∅ := by
    simp [NFAM.NFA.readCharacter, NFAM.NFA.currentStates,
      NFAM.followFreeMoves_empty, NFAM.nextStates_empty]
  refine ⟨hraw, ?_, ?_⟩
  · rw [NFAM.NFA.currentStates]
    simp only [NFAM.NFA.readCharacter] at hraw ⊢
    rw [hraw, NFAM.followFreeMoves_empty]
  · rw [NFAM.NFARulebook.nextStates, NFAM.NFARulebook.nextStates, Finset.biUnion_insert,
      NFAM.followRulesFor_eq_nil rb s c h]
    simp

/-- Claim C7, witness: a rulebook with the single rule 1-a->2 has no rule
applying to state 1 and character b. -/
theorem readCharacter_empty_and_no_rule_shrinks_witness :
    (∀ r ∈ (⟨[⟨1, 'a', 2⟩]⟩ : NFAM.NFARulebook).rules, r.appliesTo 1 'b' = false)
    ∧ ((NFAM.NFA.readCharacter ⟨∅, [], ⟨[⟨1, 'a', 2⟩]⟩⟩ 'b').rawCurrentStates = ∅
      ∧ (NFAM.NFA.readCharacter ⟨∅, [], ⟨[⟨1, 'a', 2⟩]⟩⟩ 'b').currentStates = ∅
      ∧ (⟨[⟨1, 'a', 2⟩]⟩ : NFAM.NFARulebook).nextStates (insert 1 {2}) 'b'
        = (⟨[⟨1, 'a', 2⟩]⟩ : NFAM.NFARulebook).nextStates {2} 'b') :=
  ⟨by decide,
   readCharacter_empty_and_no_rule_shrinks ⟨[⟨1, 'a', 2⟩]⟩ [] 'b' 1 {2} (by decide)⟩

namespace EquivM

/-- Membership in the dedupFirst fold: an element is in the result exactly
when it is in the accumulator or in the remaining input. -/
lemma mem_dedupFirst_go (l : List Char) :
    ∀ acc x, (x ∈ l.foldl (fun acc c => if c ∈ acc then acc else acc ++ [c]) acc)
      ↔ x ∈ acc ∨ x ∈ l := by
  induction l with
  | nil => simp
  | cons c cs ih =>
    intro acc x
    by_cases hc : c ∈ acc
    · simp only [List.foldl_cons, if_pos hc, ih, List.mem_cons]
      constructor
      · rintro (h | h)
        · exact Or.inl h
        · exact Or.inr (Or.inr h)
      · rintro (h | h | h)
        · exact Or.inl h
        · exact Or.inl (h ▸ hc)
        · exact Or.inr h
    · simp only [List.foldl_cons, if_neg hc, ih, List.mem_append, List.mem_singleton,
        List.mem_cons]
      tauto

/-- The dedupFirst fold preserves freedom from duplicates. -/
lemma nodup_dedupFirst_go (l : List Char) :
    ∀ acc, acc.Nodup →
      (l.foldl (fun acc c => if c ∈ acc then acc else acc ++ [c]) acc).Nodup := by
  induction l with
  | nil => intro acc h; simpa using h
  | cons c cs ih =>
    intro acc h
    by_cases hc : c ∈ acc
    · simpa [List.foldl_cons, if_pos hc] using ih acc h
    · rw [List.foldl_cons, if_neg hc]
      exact ih (acc ++ [c]) (by simp [List.nodup_append, h, hc])

/-- dedupFirst keeps exactly the elements of its input. -/
lemma mem_dedupFirst (l : List Char) (x : Char) : x ∈ dedupFirst l ↔ x ∈ l := by
  simp [dedupFirst, mem_dedupFirst_go]

/-- dedupFirst produces no duplicates. -/
lemma nodup_dedupFirst (l : List Char) : (dedupFirst l).Nodup :=
  nodup_dedupFirst_go l [] List.nodup_nil

end EquivM

/-- Claim C8: the rulebook's alphabet is the duplicate-free list of the
symbols appearing in some rule other than the EPSILON marker, and the
subset-construction simulator derives, for any macro-state, exactly one
rule per alphabet symbol, probing the alphabet symbols in order. -/
theorem alphabet_and_rulesFor_probe (rb : EquivM.NFARulebook)
    (sim : EquivM.NFASimulation) (S : Finset ℕ) :
    ((sim.rulesFor S).map DFAM.FARule.character = sim.nfaDesign.rulebook.alphabet)
    ∧ (∀ c : Char, c ∈ rb.alphabet ↔ (c ≠ EPSILON ∧ ∃ r ∈ rb.rules, r.character = c))
    ∧ rb.alphabet.Nodup := by
  refine ⟨?_, ?_, EquivM.nodup_dedupFirst _⟩
  · have hcomp : (DFAM.FARule.character ∘ fun c =>
        (⟨S, c, sim.nextState S c⟩ : DFAM.FARule)) = id := rfl
    simp [EquivM.NFASimulation.rulesFor, hcomp]
  · intro c
    simp only [EquivM.NFARulebook.alphabet, EquivM.mem_dedupFirst, List.mem_filter,
      List.mem_map, decide_eq_true_eq]
    constructor
    · rintro ⟨⟨r, hr, hrc⟩, hne⟩
      exact ⟨hne, r, hr, hrc⟩
    · rintro ⟨hne, r, hr, hrc⟩
      exact ⟨⟨r, hr, hrc⟩, hne⟩

/-- The pattern Repeat(Concatenate(Literal("a"), Choose(Empty(),
Literal("b")))) from the source demo, written (a(|b))*. -/
def examplePattern : NFAM.Pattern :=
  .repeatPat (.concatenate (.literal 'a') (.choose .empty (.literal 'b')))

/-- Claim C9: matching the pattern (a(|b))* accepts the empty string, a,
ab, aba, abab and abaab, and rejects abba.  The compilation is run at
generator position 0, the initial position of the source's module-level
state generator; the accepted language does not depend on that offset. -/
theorem examplePattern_matches_expected :
    examplePattern.matches 0 [] = true
    ∧ examplePattern.matches 0 ['a'] = true
    ∧ examplePattern.matches 0 ['a', 'b'] = true
    ∧ examplePattern.matches 0 ['a', 'b', 'a'] = true
    ∧ examplePattern.matches 0 ['a', 'b', 'a', 'b'] = true
    ∧ examplePattern.matches 0 ['a', 'b', 'a', 'a', 'b'] = true
    ∧ examplePattern.matches 0 ['a', 'b', 'b', 'a'] = false := by decide

/-- Claim C1: on the Equivalence module's own example NFA, the DFA design
emitted by the subset-construction simulator agrees with the NFA design on
the repository's sample strings aaa, aab and bbbabb, but disagrees on the
string abab: the emitted DFA accepts it while the NFA rejects it, because
the machine escapes the empty macro-state through the first-match,
subset-based rule lookup.  The two designs therefore do not recognize the
same language. -/
theorem subset_construction_disagrees_on_abab :
    ((exampleSimulation.toDFADesign 5).map
      (fun d => d.accepts ['a', 'b', 'a', 'b']) = some (some true))
    ∧ exampleNFADesign.accepts ['a', 'b', 'a', 'b'] = false
    ∧ ((exampleSimulation.toDFADesign 5).map
      (fun d => d.accepts ['a', 'a', 'a']) = some (some false))
    ∧ exampleNFADesign.accepts ['a', 'a', 'a'] = false
    ∧ ((exampleSimulation.toDFADesign 5).map
      (fun d => d.accepts ['a', 'a', 'b']) = some (some true))
    ∧ exampleNFADesign.accepts ['a', 'a', 'b'] = true
    ∧ ((exampleSimulation.toDFADesign 5).map
      (fun d => d.accepts ['b', 'b', 'b', 'a', 'b', 'b']) = some (some true))
    ∧ exampleNFADesign.accepts ['b', 'b', 'b', 'a', 'b', 'b'] = true := by decide

/-- Claim C2: in the DFA emitted for the example NFA, the discovered rules
do include a self-loop on the empty macro-state for each alphabet symbol,
and the machine is not accepting there; but the running machine does not
stay in the empty macro-state: reading a from it moves to {1, 2}, because
the empty set is a subset of every rule's state and ruleFor picks the
first applicable rule in the list. -/
theorem empty_macro_state_not_sink :
    ((exampleSimulation.toDFADesign 5).map
      (fun d => d.rulebook.nextState ∅ 'a') = some (some {1, 2}))
    ∧ ((exampleSimulation.toDFADesign 5).map
      (fun d => d.rulebook.rules.any
        (fun r => decide (r.state = ∅) && r.character == 'a' && decide (r.follow = ∅)))
      = some true)
    ∧ ((exampleSimulation.toDFADesign 5).map
      (fun d => d.rulebook.rules.any
        (fun r => decide (r.state = ∅) && r.character == 'b' && decide (r.follow = ∅)))
      = some true)
    ∧ ((exampleSimulation.toDFADesign 5).map
      (fun d => (⟨∅, d.acceptStates, d.rulebook⟩ : EquivM.EquivalenceAdaptedDFA).accepting)
      = some false) := by decide
